import Mathlib

/-!
# Verification of the kmerPaPa statistical pipeline against its specification

This file gives a shallow embedding of the core statistical pipeline of the
kmerPaPa repository (files `counts.rs`, `sample.rs`, `expect.rs`,
`compare.rs`, `observed.rs`, `enumerate.rs`, `transform.rs`) and proves or
refutes the specification claims about it.

Modelling conventions:
* Rust machine floats (`Float` = `f32`) are modelled by `ℚ` wherever the
  claims under scrutiny are about exact order/counting behaviour on non-NaN
  values (binary search, counting, p-value ratios); the possibility of NaN
  in the comparator of `compare.rs` is modelled by `Option ℚ` with `none`
  standing for NaN.
* Rust `HashMap`s are modelled by association lists together with a
  first-match `lookup`; iteration order of a `HashMap` is unspecified in
  Rust, and every theorem below is independent of the order chosen.
* The thread-local random generator of `sample.rs` is modelled by an
  oracle `rng : Nat → ℚ` together with a running index; the theorems hold
  for every oracle.
* Types owned by the external `mutexpect` crate (`MutationType`,
  `Interval`, `Phase`, `Strand`, `CDS`, `SeqAnnotation`, `MutationEvent`)
  are not under `src/`; they are modelled from the specification, which
  fixes their variants, numeric codes and invariants.
-/

namespace KmerPapa

/-- Modelled from the spec: `MutationType` of the `mutexpect` crate, a finite
enumeration with exactly these variants, in this canonical order, with the
stable numeric codes 0..9. -/
inductive MutationType where
  | Unknown
  | Synonymous
  | Missense
  | Nonsense
  | StartCodon
  | StopLoss
  | SpliceSite
  | Intronic
  | InFrameIndel
  | FrameshiftIndel
  deriving DecidableEq, Repr

/-- Modelled from the spec: the canonical enum order of `MutationType`
(iteration order of `MutationType::iter`). -/
def MutationType.all : List MutationType :=
  [.Unknown, .Synonymous, .Missense, .Nonsense, .StartCodon, .StopLoss,
   .SpliceSite, .Intronic, .InFrameIndel, .FrameshiftIndel]

/-- Modelled from the spec: the stable numeric code of each variant
(`mutation_type as usize` in `enumerate.rs`). -/
def MutationType.code : MutationType → Nat
  | .Unknown => 0
  | .Synonymous => 1
  | .Missense => 2
  | .Nonsense => 3
  | .StartCodon => 4
  | .StopLoss => 5
  | .SpliceSite => 6
  | .Intronic => 7
  | .InFrameIndel => 8
  | .FrameshiftIndel => 9

/-- Modelled from the spec: the stable display string of each variant
(`MutationType::as_str`), matching the snake_case field names used
throughout `counts.rs`. -/
def MutationType.fieldName : MutationType → String
  | .Unknown => "unknown"
  | .Synonymous => "synonymous"
  | .Missense => "missense"
  | .Nonsense => "nonsense"
  | .StartCodon => "start_codon"
  | .StopLoss => "stop_loss"
  | .SpliceSite => "splice_site"
  | .Intronic => "intronic"
  | .InFrameIndel => "inframe_indel"
  | .FrameshiftIndel => "frameshift_indel"

/-- Modelled from the spec: `MutationEvent` of the `mutexpect` crate, a pair
of a consequence class and a probability.  The probability is a finite
float, modelled exactly as a rational. -/
structure MutationEvent where
  mutation_type : MutationType
  probability : ℚ
  deriving DecidableEq, Repr

/-- `MutationTypeCounts<Count>` from `counts.rs`: a fixed mapping from
`MutationType` to `Count`, one field per variant. -/
structure MutationTypeCounts (Count : Type) where
  unknown : Count
  synonymous : Count
  missense : Count
  nonsense : Count
  start_codon : Count
  stop_loss : Count
  splice_site : Count
  intronic : Count
  inframe_indel : Count
  frameshift_indel : Count
  deriving DecidableEq, Repr

/-- `MutationTypeCounts::get` from `counts.rs`. -/
def MutationTypeCounts.get {Count : Type} (c : MutationTypeCounts Count) :
    MutationType → Count
  | .Unknown => c.unknown
  | .Synonymous => c.synonymous
  | .Missense => c.missense
  | .Nonsense => c.nonsense
  | .StartCodon => c.start_codon
  | .StopLoss => c.stop_loss
  | .SpliceSite => c.splice_site
  | .Intronic => c.intronic
  | .InFrameIndel => c.inframe_indel
  | .FrameshiftIndel => c.frameshift_indel

/-- `MutationTypeCounts::add` from `counts.rs`: add `value` onto the field
selected by `mutation_type`. -/
def MutationTypeCounts.add {Count : Type} [Add Count]
    (c : MutationTypeCounts Count) (t : MutationType) (value : Count) :
    MutationTypeCounts Count :=
  match t with
  | .Unknown => { c with unknown := c.unknown + value }
  | .Synonymous => { c with synonymous := c.synonymous + value }
  | .Missense => { c with missense := c.missense + value }
  | .Nonsense => { c with nonsense := c.nonsense + value }
  | .StartCodon => { c with start_codon := c.start_codon + value }
  | .StopLoss => { c with stop_loss := c.stop_loss + value }
  | .SpliceSite => { c with splice_site := c.splice_site + value }
  | .Intronic => { c with intronic := c.intronic + value }
  | .InFrameIndel => { c with inframe_indel := c.inframe_indel + value }
  | .FrameshiftIndel => { c with frameshift_indel := c.frameshift_indel + value }

/-- The all-zero `MutationTypeCounts` (`Default` in Rust). -/
def MutationTypeCounts.zero {Count : Type} [Zero Count] :
    MutationTypeCounts Count :=
  ⟨0, 0, 0, 0, 0, 0, 0, 0, 0, 0⟩

/-- `ExpectedMutationCounts` (`Count = Float`, modelled as `ℚ`). -/
abbrev ExpectedMutationCounts := MutationTypeCounts ℚ

/-- `ObservedMutationCounts` (`Count = usize`). -/
abbrev ObservedMutationCounts := MutationTypeCounts Nat

/-- `Change` from `observed.rs`: a point mutation (two single bases) or an
indel (ref string, alt string). -/
inductive Change where
  | PointMutation (from_ to_ : Char)
  | Indel (from_ to_ : String)
  deriving DecidableEq, Repr

/-- `Change::is_frameshift` from `observed.rs`: a point mutation is never a
frameshift; an indel is a frameshift iff the net length
`inserted.len() - deleted.len()` is not divisible by 3 (via
`isize::rem_euclid`, modelled by `Int.emod` which also yields a
non-negative remainder for the positive modulus 3). -/
def Change.is_frameshift : Change → Bool
  | .PointMutation _ _ => false
  | .Indel inserted deleted =>
      let net_length : ℤ := (inserted.length : ℤ) - (deleted.length : ℤ)
      net_length.emod 3 ≠ 0

/-- `DefaultCounter` from `counts.rs`: a dense growable histogram,
`values[i]` = number of times the outcome "exactly `i`" was recorded. -/
structure DefaultCounter where
  values : List Nat
  deriving DecidableEq, Repr

/-- `DefaultCounter::new`. -/
def DefaultCounter.new : DefaultCounter := ⟨[]⟩

/-- `DefaultCounter::inc` from `counts.rs`: zero-extend `values` until it has
an entry at `index`, then increment that entry. -/
def DefaultCounter.inc (c : DefaultCounter) (index : Nat) : DefaultCounter :=
  let vs := c.values ++ List.replicate (index + 1 - c.values.length) 0
  ⟨vs.set index (vs.getD index 0 + 1)⟩

/-- The right-to-left accumulation loop of `DefaultCounter::p_values`
(`counts.rs`), in exact arithmetic: fed the reversed histogram, it pushes
`(accumulator + count) / total` for each count.  (Float accumulation in the
source is exact-rational here; all claims about it presuppose exact p-value
ratios.) -/
def pvLoop (total : ℚ) (acc : ℚ) : List Nat → List ℚ
  | [] => []
  | count :: rest => ((acc + (count : ℚ)) / total) :: pvLoop total (acc + (count : ℚ)) rest

/-- `PValues` from `counts.rs`. -/
structure PValues where
  p_values : List ℚ
  deriving DecidableEq, Repr

/-- `DefaultCounter::p_values` from `counts.rs`: iterate the histogram from
the right, accumulating suffix sums divided by the total, then reverse. -/
def DefaultCounter.p_values (c : DefaultCounter) : PValues :=
  let total : ℚ := (c.values.sum : ℚ)
  ⟨(pvLoop total 0 c.values.reverse).reverse⟩

/-- `PValues::n_hits_or_more` from `counts.rs`: entry `n` of the p-value
vector, or `0.0` past the end. -/
def PValues.n_hits_or_more (p : PValues) (n : Nat) : ℚ :=
  (p.p_values.get? n).getD 0

end KmerPapa

namespace KmerPapa

/-! ## Helper lemmas about the p-value loop -/

lemma pvLoop_append (t a : ℚ) (u v : List Nat) :
    pvLoop t a (u ++ v) = pvLoop t a u ++ pvLoop t (a + (u.sum : ℚ)) v := by
  induction u generalizing a with
  | nil => simp [pvLoop]
  | cons c u' ih =>
      simp only [List.cons_append, pvLoop, List.append_eq, List.sum_cons]
      rw [ih]
      have hacc : a + (c : ℚ) + ((u'.sum : ℕ) : ℚ)
          = a + (((c + u'.sum : ℕ) : ℚ)) := by
        push_cast
        ring
      rw [hacc]

lemma pvRev_get? (t : ℚ) : ∀ (l : List Nat) (i : Nat), i < l.length →
    (pvLoop t 0 l.reverse).reverse.get? i = some (((l.drop i).sum : ℚ) / t) := by
  intro l
  induction l with
  | nil => intro i h; simp at h
  | cons x xs ih =>
      intro i h
      have hrev : (x :: xs).reverse = xs.reverse ++ [x] := by simp
      rw [hrev, pvLoop_append]
      simp only [pvLoop]
      rw [List.reverse_append]
      cases i with
      | zero =>
          simp only [List.reverse_cons, List.reverse_nil, List.nil_append,
            List.cons_append, List.get?]
          have : (0 : ℚ) + ((xs.reverse.sum : ℕ) : ℚ) + (x : ℚ)
              = (((x :: xs).sum : ℕ) : ℚ) := by
            rw [List.sum_reverse]
            push_cast [List.sum_cons]
            ring
          rw [this]
          rfl
      | succ i =>
          simp only [List.reverse_cons, List.reverse_nil, List.nil_append,
            List.cons_append, List.get?, List.append_eq]
          have hi : i < xs.length := by
            simpa using Nat.lt_of_succ_lt_succ h
          rw [ih i hi]
          rfl

lemma p_values_get? (c : DefaultCounter) (i : Nat) (h : i < c.values.length) :
    c.p_values.p_values.get? i
      = some (((c.values.drop i).sum : ℚ) / (c.values.sum : ℚ)) := by
  unfold DefaultCounter.p_values
  exact pvRev_get? _ c.values i h

lemma p_values_length (c : DefaultCounter) :
    c.p_values.p_values.length = c.values.length := by
  unfold DefaultCounter.p_values
  have : ∀ (t : ℚ) (l : List Nat), (pvLoop t 0 l).length = l.length := by
    intro t l
    generalize (0 : ℚ) = a
    induction l generalizing a with
    | nil => rfl
    | cons x xs ih => simp [pvLoop, ih]
  simp [this]

lemma sum_drop_le (l : List Nat) (k : Nat) : (l.drop k).sum ≤ l.sum := by
  conv_rhs => rw [← List.take_append_drop k l]
  rw [List.sum_append]
  exact Nat.le_add_left _ _

lemma sum_drop_mono (l : List Nat) {m n : Nat} (h : m ≤ n) :
    (l.drop n).sum ≤ (l.drop m).sum := by
  have : l.drop n = (l.drop m).drop (n - m) := by
    rw [List.drop_drop]
    congr 1
    omega
  rw [this]
  exact sum_drop_le _ _

/-! ## C6: DefaultCounter / PValues invariants -/

/-- C6: For every `DefaultCounter` whose recorded counts have total `N > 0`,
the derived `PValues` satisfy: `n_hits_or_more 0 = 1`; `n_hits_or_more` is
non-increasing; and `n_hits_or_more k = 0` for every `k` strictly greater
than the highest index with a nonzero count. -/
theorem counter_p_values_invariants (c : DefaultCounter)
    (h : 0 < c.values.sum) :
    c.p_values.n_hits_or_more 0 = 1 ∧
    (∀ m n : Nat, m ≤ n →
      c.p_values.n_hits_or_more n ≤ c.p_values.n_hits_or_more m) ∧
    (∀ k : Nat,
      (∀ i (hi : i < c.values.length), c.values.get ⟨i, hi⟩ ≠ 0 → i < k) →
      c.p_values.n_hits_or_more k = 0) := by
  have htotQ : (0 : ℚ) < (c.values.sum : ℚ) := by exact_mod_cast h
  have hlen : 0 < c.values.length := by
    by_contra hcon
    push_neg at hcon
    have hnil : c.values = [] := List.length_eq_zero.mp (Nat.le_zero.mp hcon)
    rw [hnil] at h
    simp at h
  have hval : ∀ m, m < c.values.length →
      c.p_values.n_hits_or_more m
        = ((c.values.drop m).sum : ℚ) / (c.values.sum : ℚ) := by
    intro m hm
    unfold PValues.n_hits_or_more
    rw [p_values_get? c m hm]
    rfl
  have hpast : ∀ m, c.values.length ≤ m → c.p_values.n_hits_or_more m = 0 := by
    intro m hm
    unfold PValues.n_hits_or_more
    rw [List.get?_eq_none.mpr]
    · rfl
    · rw [p_values_length]; exact hm
  refine ⟨?_, ?_, ?_⟩
  · rw [hval 0 hlen]
    simp only [List.drop_zero]
    exact div_self (ne_of_gt htotQ)
  · intro m n hmn
    by_cases hn : n < c.values.length
    · have hm : m < c.values.length := lt_of_le_of_lt hmn hn
      rw [hval n hn, hval m hm]
      refine (div_le_div_right htotQ).mpr ?_
      exact_mod_cast sum_drop_mono c.values hmn
    · push_neg at hn
      rw [hpast n hn]
      by_cases hm : m < c.values.length
      · rw [hval m hm]
        positivity
      · push_neg at hm
        rw [hpast m hm]
  · intro k hk
    by_cases hklen : k < c.values.length
    · rw [hval k hklen]
      have hzero : (c.values.drop k).sum = 0 := by
        apply List.sum_eq_zero
        intro x hx
        by_contra hxne
        rcases List.mem_iff_get.mp hx with ⟨⟨j, hj⟩, hget⟩
        have hj' : k + j < c.values.length := by
          have := hj
          rw [List.length_drop] at this
          omega
        have : c.values.get ⟨k + j, hj'⟩ = x := by
          rw [← hget]
          simp [List.get_drop']
        have hlt := hk (k + j) hj' (this ▸ hxne)
        omega
      rw [hzero]
      simp
    · push_neg at hklen
      exact hpast k hklen

/-- C6 witness: a concrete counter with total 3. -/
theorem counter_p_values_invariants_witness :
    0 < (DefaultCounter.mk [1, 2]).values.sum ∧
    (DefaultCounter.mk [1, 2]).p_values.n_hits_or_more 0 = 1 :=
  ⟨by decide, (counter_p_values_invariants ⟨[1, 2]⟩ (by decide)).1⟩

/-! ## The sampler's inner loop (`sample.rs`) -/

/-- Three-way comparison on `ℚ`, modelling Rust `partial_cmp` on two
non-NaN floats (which always yields `Some` ordering). -/
def cmpQ (a b : ℚ) : Ordering :=
  if a < b then .lt else if b < a then .gt else .eq

/-- Result of Rust `slice::binary_search_by`: `found i` is `Ok(i)`,
`insertAt i` is `Err(i)`. -/
inductive SearchResult where
  | found (i : Nat)
  | insertAt (i : Nat)
  deriving DecidableEq, Repr

/-- The loop of Rust `slice::binary_search_by` (the standard-library
routine called at `sample.rs:60`): maintain `left`/`right`, probe
`mid = left + (right - left) / 2`, narrow on `Less`/`Greater`, return
`Ok(mid)` on `Equal`, `Err(left)` on exhaustion.  Out-of-range access is
modelled by `getD _ 0`; the invariants keep every probed index in range.
The extra fuel argument makes the recursion structural: `right - left`
strictly decreases on every iteration, so any fuel above the initial
`right - left` makes the fuel-exhausted fallback unreachable. -/
def binarySearchLoop (probs : List ℚ) (u : ℚ) :
    Nat → Nat → Nat → SearchResult
  | 0, left, _right => .insertAt left
  | fuel + 1, left, right =>
    if left < right then
      match cmpQ (probs.getD (left + (right - left) / 2) 0) u with
      | .lt => binarySearchLoop probs u fuel (left + (right - left) / 2 + 1) right
      | .gt => binarySearchLoop probs u fuel left (left + (right - left) / 2)
      | .eq => .found (left + (right - left) / 2)
    else .insertAt left

/-- `mutation_probabilities.binary_search_by(...)` from `sample.rs`. -/
def binary_search_by (probs : List ℚ) (u : ℚ) : SearchResult :=
  binarySearchLoop probs u (probs.length + 1) 0 probs.length

/-- The `while i > 1 && mutation_probabilities[i - 1] == exclusive_threshold`
adjustment loop of `sample.rs:64-68` (note the source's `i > 1`, not
`i > 0`). -/
def leftmostAdjust (probs : List ℚ) (u : ℚ) : Nat → Nat
  | 0 => 0
  | 1 => 1
  | i + 2 =>
      if probs.getD (i + 1) 0 = u then leftmostAdjust probs u (i + 1)
      else i + 2

/-- One trial of the per-class sampling loop of `sample_mutations`
(`sample.rs:55-74`): `failures` from the binary search (with the
leftmost-equal adjustment on the `Ok` path), `successes = len - failures`. -/
def sampleOnce (probs : List ℚ) (u : ℚ) : Nat :=
  let failures :=
    match binary_search_by probs u with
    | .found index => leftmostAdjust probs u index
    | .insertAt index => index
  probs.length - failures

lemma sorted_getD_mono (probs : List ℚ) (hs : probs.Sorted (· ≤ ·))
    {i j : Nat} (hij : i ≤ j) (hj : j < probs.length) :
    probs.getD i 0 ≤ probs.getD j 0 := by
  have hi : i < probs.length := lt_of_le_of_lt hij hj
  rw [List.getD_eq_get _ _ hi, List.getD_eq_get _ _ hj]
  exact hs.rel_get_of_le hij

lemma cmpQ_lt_iff {a b : ℚ} : cmpQ a b = .lt ↔ a < b := by
  unfold cmpQ
  split_ifs with h1 h2 <;> simp_all

lemma cmpQ_gt_iff {a b : ℚ} : cmpQ a b = .gt ↔ b < a := by
  unfold cmpQ
  split_ifs with h1 h2 <;> simp_all
  exact le_of_lt h1

lemma cmpQ_eq_iff {a b : ℚ} : cmpQ a b = .eq ↔ a = b := by
  unfold cmpQ
  split_ifs with h1 h2 <;> simp_all
  · exact ne_of_lt h1
  · exact ne_of_gt h2
  · exact le_antisymm h2 h1

lemma binarySearchLoop_notMem (probs : List ℚ) (u : ℚ)
    (hs : probs.Sorted (· ≤ ·)) (hu : u ∉ probs) :
    ∀ (fuel left right : Nat), right - left < fuel → left ≤ right →
    right ≤ probs.length →
    (∀ i, i < left → probs.getD i 0 < u) →
    (∀ i, right ≤ i → i < probs.length → u < probs.getD i 0) →
    ∃ k, binarySearchLoop probs u fuel left right = .insertAt k ∧
      k ≤ probs.length ∧
      (∀ i, i < k → probs.getD i 0 < u) ∧
      (∀ i, k ≤ i → i < probs.length → u < probs.getD i 0) := by
  intro fuel
  induction fuel with
  | zero =>
      intro left right hn
      omega
  | succ n ih =>
      intro left right hn hlr hrlen hlo hhi
      by_cases hlt : left < right
      · have hmidlt : left + (right - left) / 2 < right := by
          have := Nat.div_lt_self (Nat.sub_pos_of_lt hlt) one_lt_two
          omega
        have hmidlen : left + (right - left) / 2 < probs.length :=
          lt_of_lt_of_le hmidlt hrlen
        rw [binarySearchLoop]
        simp only [hlt, if_true]
        -- the three cases appear in the constructor order lt, eq, gt
        rcases hcmp : cmpQ (probs.getD (left + (right - left) / 2) 0) u with
          _ | _ | _
        · -- Less: recurse into the right half
          have hmidval : probs.getD (left + (right - left) / 2) 0 < u :=
            cmpQ_lt_iff.mp hcmp
          apply ih (left + (right - left) / 2 + 1) right (by omega) (by omega)
            hrlen ?_ hhi
          intro i hi
          by_cases hi2 : i < left
          · exact hlo i hi2
          · push_neg at hi2
            calc probs.getD i 0
                ≤ probs.getD (left + (right - left) / 2) 0 :=
                  sorted_getD_mono probs hs (by omega) hmidlen
              _ < u := hmidval
        · -- Equal: impossible, u is not an element
          exfalso
          have : probs.getD (left + (right - left) / 2) 0 = u :=
            cmpQ_eq_iff.mp hcmp
          apply hu
          rw [← this, List.getD_eq_get _ _ hmidlen]
          exact List.get_mem _ _ _
        · -- Greater: recurse into the left half
          have hmidval : u < probs.getD (left + (right - left) / 2) 0 :=
            cmpQ_gt_iff.mp hcmp
          apply ih left (left + (right - left) / 2) (by omega) (by omega)
            (by omega) hlo ?_
          intro i hi hilen
          by_cases hi2 : right ≤ i
          · exact hhi i hi2 hilen
          · push_neg at hi2
            calc u
                < probs.getD (left + (right - left) / 2) 0 := hmidval
              _ ≤ probs.getD i 0 := sorted_getD_mono probs hs (by omega) hilen
      · refine ⟨left, ?_, by omega, hlo, ?_⟩
        · rw [binarySearchLoop]
          simp [hlt]
        · intro i hi hilen
          exact hhi i (by omega) hilen

lemma countP_gt_of_split (l : List ℚ) (u : ℚ) (k : Nat) (hk : k ≤ l.length)
    (hlt : ∀ i, i < k → l.getD i 0 < u)
    (hgt : ∀ i, k ≤ i → i < l.length → u < l.getD i 0) :
    l.countP (fun p => decide (u < p)) = l.length - k := by
  conv_lhs => rw [← List.take_append_drop k l]
  rw [List.countP_append]
  have h1 : (l.take k).countP (fun p => decide (u < p)) = 0 := by
    rw [List.countP_eq_zero]
    intro a ha
    rcases List.mem_iff_getElem.mp ha with ⟨j, hj, hval⟩
    have hjk : j < k := by
      have := hj
      rw [List.length_take] at this
      omega
    have hjl : j < l.length := by omega
    have : l[j] = a := by
      rw [← hval]
      simp
    have hlta : a < u := by
      rw [← this, ← List.getD_eq_getElem l 0 hjl]
      exact hlt j hjk
    simp only [decide_eq_true_eq, not_lt]
    exact le_of_lt hlta
  have h2 : (l.drop k).countP (fun p => decide (u < p)) = (l.drop k).length := by
    rw [List.countP_eq_length]
    intro a ha
    rcases List.mem_iff_getElem.mp ha with ⟨j, hj, hval⟩
    have hjl : k + j < l.length := by
      have := hj
      rw [List.length_drop] at this
      omega
    have : l[k + j] = a := by
      rw [← hval]
      simp
    have hgta : u < a := by
      rw [← this, ← List.getD_eq_getElem l 0 hjl]
      exact hgt (k + j) (by omega) hjl
    simpa using hgta
  rw [h1, h2, List.length_drop]
  omega

/-! ## C1: the trial count of the sampler -/

/-- C1 counterexample: with the sorted one-element vector `[1/2]` and the
threshold `u = 1/2 ∈ [0,1)`, the code counts 1 success although no
probability is strictly greater than `u` (the binary search `Ok` path
counts elements `≥ u`, not `> u`). -/
theorem sample_once_claim_counterexample :
    List.Sorted (· ≤ ·) [mkRat 1 2] ∧ (0 : ℚ) ≤ mkRat 1 2 ∧ mkRat 1 2 < 1 ∧
    sampleOnce [mkRat 1 2] (mkRat 1 2)
      ≠ [mkRat 1 2].countP (fun p => decide (mkRat 1 2 < p)) := by
  decide

/-- C1 (amended): for every sorted vector of probabilities and every
threshold `u ∈ [0,1)` that is not itself one of the probabilities, the
`successes` value computed from the binary search equals
`|{i : probs[i] > u}|`. -/
theorem sample_once_counts_strictly_above (probs : List ℚ) (u : ℚ)
    (hs : probs.Sorted (· ≤ ·)) (h0 : 0 ≤ u) (h1 : u < 1)
    (hu : u ∉ probs) :
    sampleOnce probs u = probs.countP (fun p => decide (u < p)) := by
  rcases binarySearchLoop_notMem probs u hs hu (probs.length + 1) 0
      probs.length (by omega) (by omega) (le_refl _)
      (fun i hi => absurd hi (Nat.not_lt_zero i))
      (fun i h1 h2 => absurd h2 (by omega))
    with ⟨k, hrun, hklen, hlo, hhi⟩
  unfold sampleOnce binary_search_by
  rw [hrun]
  rw [countP_gt_of_split probs u k hklen hlo hhi]

/-- C1 amended-claim witness: `probs = [1/4, 1/2]`, `u = 1/3`. -/
theorem sample_once_counts_strictly_above_witness :
    List.Sorted (· ≤ ·) [mkRat 1 4, mkRat 1 2] ∧ (0 : ℚ) ≤ mkRat 1 3 ∧
    mkRat 1 3 < 1 ∧ mkRat 1 3 ∉ [mkRat 1 4, mkRat 1 2] ∧
    sampleOnce [mkRat 1 4, mkRat 1 2] (mkRat 1 3)
      = [mkRat 1 4, mkRat 1 2].countP (fun p => decide (mkRat 1 3 < p)) :=
  ⟨by decide, by decide, by decide, by decide,
    sample_once_counts_strictly_above [mkRat 1 4, mkRat 1 2] (mkRat 1 3)
      (by decide) (by decide) (by decide) (by decide)⟩

/-! ## C10: the full sampler (`sample_mutations`, `sample.rs:18-81`) -/

/-- The ascending probability sort of `sample.rs:51`
(`sort_unstable_by(partial_cmp)` on non-NaN floats), modelled as an
insertion sort by `≤`. -/
def insertSorted (x : ℚ) : List ℚ → List ℚ
  | [] => [x]
  | y :: ys => if x ≤ y then x :: y :: ys else y :: insertSorted x ys

/-- See `insertSorted`. -/
def sortProbs (l : List ℚ) : List ℚ := l.foldr insertSorted []

/-- The event filter of `sample.rs:37-39`: drop `Unknown` events when
`drop_unknown_mutation_type` is set. -/
def keptEvents (dropUnknown : Bool) (events : List MutationEvent) :
    List MutationEvent :=
  events.filter (fun e => !(dropUnknown && e.mutation_type == MutationType.Unknown))

/-- The per-class probability bucket of `sample.rs:35-44`: probabilities of
the events of class `t`, in event order. -/
def classProbs (events : List MutationEvent) (t : MutationType) : List ℚ :=
  (events.filter (fun e => e.mutation_type == t)).map (fun e => e.probability)

/-- The classes that have a bucket (`HashMap` keys of `sample.rs:35`), in
canonical order; the `HashMap` iteration order is unspecified in Rust and
all theorems hold for any order. -/
def presentTypes (events : List MutationEvent) : List MutationType :=
  MutationType.all.filter (fun t => !(classProbs events t).isEmpty)

/-- The `number_of_samplings` trials of one class (`sample.rs:55-75`):
starting from `DefaultCounter::new`, each trial `j` draws `rng (idx + j)`
and increments the bucket of the computed success count. -/
def sampleClass (probs : List ℚ) (N : Nat) (rng : Nat → ℚ) (idx : Nat) :
    DefaultCounter :=
  (List.range N).foldl
    (fun c j => c.inc (sampleOnce probs (rng (idx + j)))) DefaultCounter.new

/-- The per-region loop over classes (`sample.rs:49-77`), threading the
random-draw index. -/
def sampleRegionAux (rng : Nat → ℚ) (N : Nat) (events : List MutationEvent) :
    List MutationType → Nat → List (MutationType × DefaultCounter) × Nat
  | [], idx => ([], idx)
  | t :: ts, idx =>
      let counter := sampleClass (sortProbs (classProbs events t)) N rng idx
      let rest := sampleRegionAux rng N events ts (idx + N)
      ((t, counter) :: rest.1, rest.2)

/-- The `--id` region filter shared by all pipeline steps. -/
def passesFilter (filt : Option String) (name : String) : Bool :=
  match filt with
  | some id => name == id
  | none => true

/-- `sample_mutations` from `sample.rs`, over an association-list model of
the region map, with the thread-local RNG modelled by the oracle `rng`
and a running draw index. -/
def sampleMutationsAux (rng : Nat → ℚ) (N : Nat) (dropUnknown : Bool)
    (filt : Option String) :
    List (String × List MutationEvent) → Nat →
    List (String × List (MutationType × DefaultCounter))
  | [], _ => []
  | (name, events) :: rest, idx =>
      if passesFilter filt name then
        let kept := keptEvents dropUnknown events
        let r := sampleRegionAux rng N kept (presentTypes kept) idx
        (name, r.1) :: sampleMutationsAux rng N dropUnknown filt rest r.2
      else
        sampleMutationsAux rng N dropUnknown filt rest idx

/-- `sample_mutations` (entry point). -/
def sample_mutations (possible : List (String × List MutationEvent))
    (N : Nat) (dropUnknown : Bool) (filt : Option String) (rng : Nat → ℚ) :
    List (String × List (MutationType × DefaultCounter)) :=
  sampleMutationsAux rng N dropUnknown filt possible 0

lemma insertSorted_length (x : ℚ) (l : List ℚ) :
    (insertSorted x l).length = l.length + 1 := by
  induction l with
  | nil => rfl
  | cons y ys ih =>
      unfold insertSorted
      split_ifs <;> simp [ih]

lemma sortProbs_length (l : List ℚ) : (sortProbs l).length = l.length := by
  unfold sortProbs
  induction l with
  | nil => rfl
  | cons x xs ih => simp [List.foldr_cons, insertSorted_length, ih]

lemma sampleOnce_le (probs : List ℚ) (u : ℚ) :
    sampleOnce probs u ≤ probs.length := by
  unfold sampleOnce
  exact Nat.sub_le _ _

lemma sum_set_getD_succ :
    ∀ (l : List Nat) (i : Nat), i < l.length →
    (l.set i (l.getD i 0 + 1)).sum = l.sum + 1 := by
  intro l
  induction l with
  | nil => intro i h; simp at h
  | cons x xs ih =>
      intro i h
      cases i with
      | zero => simp [List.getD]; omega
      | succ i =>
          have hi : i < xs.length := by simpa using Nat.lt_of_succ_lt_succ h
          simp only [List.set, List.sum_cons, List.getD_cons_succ, ih i hi]
          omega

lemma inc_sum (c : DefaultCounter) (i : Nat) :
    (c.inc i).values.sum = c.values.sum + 1 := by
  unfold DefaultCounter.inc
  have hlen : i < (c.values ++ List.replicate (i + 1 - c.values.length) 0).length := by
    simp [List.length_append, List.length_replicate]
    omega
  rw [sum_set_getD_succ _ i hlen]
  simp [List.sum_append, List.sum_replicate]

lemma inc_length (c : DefaultCounter) (i : Nat) :
    (c.inc i).values.length = max c.values.length (i + 1) := by
  unfold DefaultCounter.inc
  simp only [List.length_set, List.length_append, List.length_replicate]
  omega

lemma foldl_inc_sum (f : Nat → Nat) :
    ∀ (js : List Nat) (c : DefaultCounter),
    ((js.foldl (fun c j => c.inc (f j)) c).values.sum = c.values.sum + js.length) := by
  intro js
  induction js with
  | nil => intro c; simp
  | cons j js ih =>
      intro c
      simp only [List.foldl_cons, List.length_cons, ih, inc_sum]
      omega

lemma foldl_inc_length (f : Nat → Nat) (B : Nat) :
    ∀ (js : List Nat) (c : DefaultCounter),
    (∀ j ∈ js, f j ≤ B) → c.values.length ≤ B + 1 →
    ((js.foldl (fun c j => c.inc (f j)) c).values.length ≤ B + 1) := by
  intro js
  induction js with
  | nil => intro c _ hc; simpa using hc
  | cons j js ih =>
      intro c hb hc
      simp only [List.foldl_cons]
      apply ih _ (fun j hj => hb j (List.mem_cons_of_mem _ hj))
      rw [inc_length]
      have := hb j (List.mem_cons_self _ _)
      omega

lemma sampleClass_sum (probs : List ℚ) (N : Nat) (rng : Nat → ℚ) (idx : Nat) :
    (sampleClass probs N rng idx).values.sum = N := by
  unfold sampleClass
  rw [foldl_inc_sum]
  simp [DefaultCounter.new]

lemma sampleClass_length (probs : List ℚ) (N : Nat) (rng : Nat → ℚ) (idx : Nat) :
    (sampleClass probs N rng idx).values.length ≤ probs.length + 1 := by
  unfold sampleClass
  apply foldl_inc_length
  · intro j _
    exact sampleOnce_le probs _
  · simp [DefaultCounter.new]

lemma sampleRegionAux_mem (rng : Nat → ℚ) (N : Nat) (events : List MutationEvent) :
    ∀ (ts : List MutationType) (idx : Nat) (t : MutationType) (c : DefaultCounter),
    (t, c) ∈ (sampleRegionAux rng N events ts idx).1 →
    c.values.sum = N ∧ c.values.length ≤ (classProbs events t).length + 1 := by
  intro ts
  induction ts with
  | nil => intro idx t c h; simp [sampleRegionAux] at h
  | cons t' ts ih =>
      intro idx t c h
      simp only [sampleRegionAux, List.mem_cons] at h
      rcases h with h | h
      · rcases Prod.mk.injEq .. ▸ h with ⟨ht, hc⟩
        subst ht
        subst hc
        constructor
        · exact sampleClass_sum _ _ _ _
        · have := sampleClass_length (sortProbs (classProbs events t)) N rng idx
          rwa [sortProbs_length] at this
      · exact ih _ t c h

/-- C10: every histogram produced by `sample_mutations` has counts summing
to exactly `number_of_samplings`, and its highest incremented bucket is at
most the number of (kept) events of that (region, class). -/
theorem sample_mutations_histograms
    (possible : List (String × List MutationEvent)) (N : Nat)
    (dropUnknown : Bool) (filt : Option String) (rng : Nat → ℚ)
    (r : String) (dists : List (MutationType × DefaultCounter))
    (hmem : (r, dists) ∈ sample_mutations possible N dropUnknown filt rng) :
    ∃ events, (r, events) ∈ possible ∧
      ∀ t c, (t, c) ∈ dists →
        c.values.sum = N ∧
        c.values.length ≤ (classProbs (keptEvents dropUnknown events) t).length + 1 := by
  unfold sample_mutations at hmem
  suffices h : ∀ (ps : List (String × List MutationEvent)) (idx : Nat),
      (r, dists) ∈ sampleMutationsAux rng N dropUnknown filt ps idx →
      ∃ events, (r, events) ∈ ps ∧
        ∀ t c, (t, c) ∈ dists →
          c.values.sum = N ∧
          c.values.length ≤ (classProbs (keptEvents dropUnknown events) t).length + 1 by
    exact h possible 0 hmem
  intro ps
  induction ps with
  | nil => intro idx h; simp [sampleMutationsAux] at h
  | cons p rest ih =>
      intro idx h
      rcases p with ⟨name, events⟩
      simp only [sampleMutationsAux] at h
      by_cases hf : passesFilter filt name
      · rw [if_pos hf] at h
        rcases List.mem_cons.mp h with h | h
        · rcases Prod.mk.injEq .. ▸ h with ⟨hr, hd⟩
          subst hr
          refine ⟨events, List.mem_cons_self _ _, ?_⟩
          intro t c hc
          rw [hd] at hc
          exact sampleRegionAux_mem rng N _ _ _ t c hc
        · rcases ih _ h with ⟨ev, hev, hprop⟩
          exact ⟨ev, List.mem_cons_of_mem _ hev, hprop⟩
      · rw [if_neg hf] at h
        rcases ih _ h with ⟨ev, hev, hprop⟩
        exact ⟨ev, List.mem_cons_of_mem _ hev, hprop⟩

/-- C10 witness: one region with one synonymous event, two trials. -/
theorem sample_mutations_histograms_witness :
    ∃ events,
      ("r", events) ∈ [("r", [MutationEvent.mk .Synonymous (mkRat 1 2)])] ∧
      ∀ t c, (t, c) ∈ [(MutationType.Synonymous, DefaultCounter.mk [0, 2])] →
        c.values.sum = 2 ∧
        c.values.length ≤ (classProbs (keptEvents false events) t).length + 1 :=
  sample_mutations_histograms
    [("r", [MutationEvent.mk .Synonymous (mkRat 1 2)])] 2 false none
    (fun _ => mkRat 1 4) "r" [(MutationType.Synonymous, DefaultCounter.mk [0, 2])]
    (by decide)

/-! ## C9: the expector (`expected_number_of_mutations`, `expect.rs:16-49`) -/

/-- The per-class `BigDecimal` accumulation of `expect.rs:31-40`: a single
pass over the events adds each event's probability onto its class's
accumulator.  `BigDecimal` addition is exact arbitrary-precision decimal
arithmetic, modelled by exact `ℚ` addition; this is the per-class view of
the single `precise_counts` loop. -/
def preciseSum (events : List MutationEvent) (t : MutationType) : ℚ :=
  events.foldl
    (fun acc e => if e.mutation_type = t then acc + e.probability else acc) 0

/-- The per-region body of `expected_number_of_mutations`
(`expect.rs:28-45`): for each class occurring among the events, round the
exact per-class sum once (`to_f32`, modelled by the arbitrary rounding
function `roundF`) and add it onto the all-zero counts. -/
def expectedCountsOfEvents (roundF : ℚ → ℚ) (events : List MutationEvent) :
    ExpectedMutationCounts :=
  (presentTypes events).foldl
    (fun c t => c.add t (roundF (preciseSum events t))) MutationTypeCounts.zero

/-- `expected_number_of_mutations` from `expect.rs` over the
association-list model of the region map. -/
def expected_number_of_mutations (roundF : ℚ → ℚ)
    (possible : List (String × List MutationEvent)) (filt : Option String) :
    List (String × ExpectedMutationCounts) :=
  possible.foldr
    (fun p acc =>
      if passesFilter filt p.1 then
        (p.1, expectedCountsOfEvents roundF p.2) :: acc
      else acc) []

lemma preciseSum_eq_sum (events : List MutationEvent) (t : MutationType) :
    preciseSum events t
      = ((events.filter (fun e => e.mutation_type == t)).map
          (fun e => e.probability)).sum := by
  unfold preciseSum
  suffices h : ∀ (l : List MutationEvent) (a : ℚ),
      l.foldl (fun acc e => if e.mutation_type = t then acc + e.probability else acc) a
        = a + ((l.filter (fun e => e.mutation_type == t)).map
            (fun e => e.probability)).sum by
    rw [h events 0, zero_add]
  intro l
  induction l with
  | nil => intro a; simp
  | cons e l ih =>
      intro a
      by_cases he : e.mutation_type = t
      · simp [List.foldl_cons, List.filter_cons, he, ih, add_assoc]
      · simp [List.foldl_cons, List.filter_cons, he, ih]

lemma preciseSum_perm {events events' : List MutationEvent}
    (h : events.Perm events') (t : MutationType) :
    preciseSum events t = preciseSum events' t := by
  rw [preciseSum_eq_sum, preciseSum_eq_sum]
  exact ((h.filter _).map _).sum_eq

lemma classProbs_perm {events events' : List MutationEvent}
    (h : events.Perm events') (t : MutationType) :
    (classProbs events t).length = (classProbs events' t).length := by
  unfold classProbs
  exact ((h.filter _).map _).length_eq

lemma presentTypes_perm {events events' : List MutationEvent}
    (h : events.Perm events') :
    presentTypes events = presentTypes events' := by
  unfold presentTypes
  apply List.filter_congr
  intro t _
  have hlen := classProbs_perm h t
  have hemp : (classProbs events t).isEmpty = (classProbs events' t).isEmpty := by
    rw [Bool.eq_iff_iff, List.isEmpty_iff_length_eq_zero,
      List.isEmpty_iff_length_eq_zero]
    omega
  rw [hemp]

/-- C9: `expected_number_of_mutations` is order-independent — permuting a
region's event list leaves the resulting `ExpectedMutationCounts`
unchanged, because each class's probabilities are summed exactly and
rounded only once, at the end. -/
theorem expected_counts_order_independent (roundF : ℚ → ℚ)
    (events events' : List MutationEvent) (hperm : events.Perm events') :
    expectedCountsOfEvents roundF events = expectedCountsOfEvents roundF events' := by
  unfold expectedCountsOfEvents
  rw [presentTypes_perm hperm]
  have hfun :
      (fun (c : ExpectedMutationCounts) t => c.add t (roundF (preciseSum events t)))
        = fun c t => c.add t (roundF (preciseSum events' t)) := by
    funext c t
    rw [preciseSum_perm hperm]
  rw [hfun]

/-- C9 witness: swapping two events of different classes. -/
theorem expected_counts_order_independent_witness :
    ([MutationEvent.mk .Synonymous (mkRat 1 4),
      MutationEvent.mk .Missense (mkRat 1 2)].Perm
     [MutationEvent.mk .Missense (mkRat 1 2),
      MutationEvent.mk .Synonymous (mkRat 1 4)]) ∧
    expectedCountsOfEvents id
      [MutationEvent.mk .Synonymous (mkRat 1 4),
       MutationEvent.mk .Missense (mkRat 1 2)]
      = expectedCountsOfEvents id
        [MutationEvent.mk .Missense (mkRat 1 2),
         MutationEvent.mk .Synonymous (mkRat 1 4)] :=
  ⟨List.Perm.swap _ _ _,
    expected_counts_order_independent id _ _ (List.Perm.swap _ _ _)⟩

/-! ## C2 and C3: the persisted CSV rows of `expect.rs` and `sample.rs` -/

/-- `CSVRow` from `expect.rs:54-64`: the serde row type of the
expected-mutations TSV.  It declares columns only for the first seven
`MutationType` variants (no `intronic`, `inframe_indel` or
`frameshift_indel` column). -/
structure ExpectCSVRow where
  region : String
  unknown : ℚ
  synonymous : ℚ
  missense : ℚ
  nonsense : ℚ
  start_codon : ℚ
  stop_loss : ℚ
  splice_site : ℚ
  deriving DecidableEq, Repr

/-- The TSV header the csv crate derives from the field names of `CSVRow`
in `expect.rs`. -/
def expectCSVHeader : List String :=
  ["region", "unknown", "synonymous", "missense", "nonsense", "start_codon",
   "stop_loss", "splice_site"]

/-- The row written for one region by `write_to_file` (`expect.rs:75-86`):
only the seven declared fields of the counts are copied. -/
def expectWriteRow (region : String) (c : ExpectedMutationCounts) :
    ExpectCSVRow :=
  ⟨region, c.unknown, c.synonymous, c.missense, c.nonsense, c.start_codon,
   c.stop_loss, c.splice_site⟩

/-- `DefaultCounter`'s `ToString` from `counts.rs:135-146`: the
pipe-joined histogram. -/
def DefaultCounter.pipeString (c : DefaultCounter) : String :=
  String.intercalate "|" (c.values.map (fun v => toString v))

/-- `CSVRow` from `sample.rs:85-95`: the serde row type of the
sampled-mutations TSV; again only seven class columns exist. -/
structure SampleCSVRow where
  region : String
  unknown : String
  synonymous : String
  missense : String
  nonsense : String
  start_codon : String
  stop_loss : String
  splice_site : String
  deriving DecidableEq, Repr

/-- The `match mut_type` of `sample.rs:108-116`: it has arms only for the
first seven variants.  (Against the ten-variant `MutationType` the source
match is non-exhaustive — it does not compile as written; the only
behaviour consistent with the declared seven-column `CSVRow` is that the
last three variants set no field, which is what the fall-through arm here
does.) -/
def setSampleField (row : SampleCSVRow) (t : MutationType) (value : String) :
    SampleCSVRow :=
  match t with
  | .Unknown => { row with unknown := value }
  | .Synonymous => { row with synonymous := value }
  | .Missense => { row with missense := value }
  | .Nonsense => { row with nonsense := value }
  | .StartCodon => { row with start_codon := value }
  | .StopLoss => { row with stop_loss := value }
  | .SpliceSite => { row with splice_site := value }
  | _ => row

/-- The row written for one region by `write_to_file` (`sample.rs:103-118`):
start from the default row, set `region`, then store each distribution's
pipe string in its class's column. -/
def sampleWriteRow (region : String)
    (distributions : List (MutationType × DefaultCounter)) : SampleCSVRow :=
  distributions.foldl
    (fun row p => setSampleField row p.1 p.2.pipeString)
    ⟨region, "", "", "", "", "", "", ""⟩

/-- C3: the header of the expected-mutations TSV is `region` followed by
only the first seven `MutationType` columns — not one column for each of
the ten variants as the specification states.  (The companion
`read_from_file` at `expect.rs:100-108` even constructs the ten-field
`ExpectedMutationCounts` from these seven fields alone, which does not
compile against `counts.rs`; the seven-column row is a stale remnant.) -/
theorem expect_header_misses_three_classes :
    expectCSVHeader
        = "region" :: (MutationType.all.take 7).map MutationType.fieldName ∧
    expectCSVHeader
        ≠ "region" :: MutationType.all.map MutationType.fieldName := by
  constructor
  · rfl
  · intro h
    have hlen := congrArg List.length h
    simp [expectCSVHeader, MutationType.all] at hlen

/-- C2: writing is not injective, so no reader can restore what was
written — two expected-mutation counts that differ only in
`inframe_indel` serialize to the same row, and two sampled-mutation
distribution maps that differ only in an `Intronic` histogram serialize to
the same row.  Hence `read(write(x)) = x` fails for well-formed values
with data in the Intronic/InFrameIndel/FrameshiftIndel classes. -/
theorem persisted_write_drops_indel_classes :
    (expectWriteRow "r" (MutationTypeCounts.zero.add .InFrameIndel 1)
        = expectWriteRow "r" MutationTypeCounts.zero ∧
      MutationTypeCounts.zero.add .InFrameIndel (1 : ℚ)
        ≠ MutationTypeCounts.zero) ∧
    (sampleWriteRow "r" [(MutationType.Intronic, DefaultCounter.mk [5])]
        = sampleWriteRow "r" [] ∧
      [(MutationType.Intronic, DefaultCounter.mk [5])]
        ≠ ([] : List (MutationType × DefaultCounter))) := by
  refine ⟨⟨rfl, ?_⟩, ⟨rfl, by simp⟩⟩
  intro h
  have := congrArg MutationTypeCounts.inframe_indel h
  simp [MutationTypeCounts.add, MutationTypeCounts.zero] at this

/-! ## C4 and C5: the comparator (`compare_mutations`, `compare.rs`) -/

/-- `AnnotatedPointMutation` as used by `compare.rs` (fields
`region_name` and `mutation_type`). -/
structure AnnotatedPointMutation where
  region_name : String
  mutation_type : MutationType
  deriving DecidableEq, Repr

/-- One step of building the tally `HashMap` of
`tally_up_observed_mutations` (`compare.rs:58-69`):
`entry(name).or_insert(default).add(t, 1)` on the association-list model. -/
def tallyInsert (l : List (String × ObservedMutationCounts)) (name : String)
    (t : MutationType) : List (String × ObservedMutationCounts) :=
  match l with
  | [] => [(name, MutationTypeCounts.zero.add t 1)]
  | (n, c) :: rest =>
      if n == name then (n, c.add t 1) :: rest
      else (n, c) :: tallyInsert rest name t

/-- `tally_up_observed_mutations` from `compare.rs`. -/
def tally_up_observed_mutations (mutations : List AnnotatedPointMutation)
    (filt : Option String) : List (String × ObservedMutationCounts) :=
  mutations.foldl
    (fun acc m =>
      if passesFilter filt m.region_name then
        tallyInsert acc m.region_name m.mutation_type
      else acc) []

/-- The float p-value actually computed by
`sampled.p_values().n_hits_or_more(observed)` in `compare.rs:44`, with NaN
made explicit: when the histogram total is 0, every stored accumulator
entry is `0.0/0.0 = NaN` (`none`); entries past the end of the p-value
vector are the literal `0.0`; with a positive total the entries are the
exact ratios of `DefaultCounter.p_values`. -/
def pValueF (c : DefaultCounter) (n : Nat) : Option ℚ :=
  if c.values.sum = 0 then
    (if n < c.values.length then none else some 0)
  else some (c.p_values.n_hits_or_more n)

/-- Rust `a.partial_cmp(&b).unwrap_or(Equal)` on possibly-NaN floats
(`compare.rs:50`): `partial_cmp` is `None` when either side is NaN, so the
comparator treats NaN as equal to everything. -/
def cmpF (a b : Option ℚ) : Ordering :=
  match a, b with
  | some x, some y => cmpQ x y
  | _, _ => .eq

/-- `ComparedMutations` from `compare.rs:73-98` (`mutation_type` is the
display string `as_str`). -/
structure ComparedMutations where
  region : String
  mutation_type : String
  observed : Nat
  expected : ℚ
  p_value : Option ℚ
  deriving DecidableEq, Repr

/-- The inner loop over mutation types of `compare_mutations`
(`compare.rs:29-48`) for one region: skip `Unknown`; on a missing
distribution emit a warning when the expectation is nonzero (modelled as a
`(region, class, expected)` triple, abstracting the `eprintln!` format)
and omit the row; otherwise assemble the row. -/
def regionRowsAux (region : String) (rexp : ExpectedMutationCounts)
    (robs : ObservedMutationCounts)
    (rs : List (MutationType × DefaultCounter)) :
    List MutationType →
    List ComparedMutations × List (String × MutationType × ℚ)
  | [] => ([], [])
  | t :: ts =>
      let rest := regionRowsAux region rexp robs rs ts
      if t == MutationType.Unknown then rest
      else
        match rs.lookup t with
        | none =>
            if rexp.get t ≠ 0 then (rest.1, (region, t, rexp.get t) :: rest.2)
            else rest
        | some counter =>
            (⟨region, t.fieldName, robs.get t, rexp.get t,
              pValueF counter (robs.get t)⟩ :: rest.1, rest.2)

/-- The outer loop over the regions of the expected counts
(`compare.rs:24-49`): a region absent from the sampled mutations aborts
with an error (the `?` on `with_context` at `compare.rs:26-28`). -/
def compareRegionsAux (observed : List (String × ObservedMutationCounts))
    (sampled : List (String × List (MutationType × DefaultCounter))) :
    List (String × ExpectedMutationCounts) →
    Except String (List ComparedMutations × List (String × MutationType × ℚ))
  | [] => .ok ([], [])
  | (region, rexp) :: rest =>
      match sampled.lookup region with
      | none => .error ("Failed to look up sampled mutations for region " ++ region)
      | some rs =>
          let robs := (observed.lookup region).getD MutationTypeCounts.zero
          let rr := regionRowsAux region rexp robs rs MutationType.all
          match compareRegionsAux observed sampled rest with
          | .error e => .error e
          | .ok (rows, warns) => .ok (rr.1 ++ rows, rr.2 ++ warns)

/-- The final sort of `compare.rs:50`
(`sort_unstable_by(partial_cmp.unwrap_or(Equal))`), modelled as an
insertion sort by the non-`Greater` comparator. -/
def insertRow (x : ComparedMutations) :
    List ComparedMutations → List ComparedMutations
  | [] => [x]
  | y :: ys =>
      if cmpF x.p_value y.p_value = Ordering.gt then y :: insertRow x ys
      else x :: y :: ys

/-- See `insertRow`. -/
def sortRows (l : List ComparedMutations) : List ComparedMutations :=
  l.foldr insertRow []

/-- `compare_mutations` from `compare.rs`, additionally returning the list
of emitted warnings. -/
def compare_mutations (classified : List AnnotatedPointMutation)
    (expected : List (String × ExpectedMutationCounts))
    (sampled : List (String × List (MutationType × DefaultCounter)))
    (filt : Option String) :
    Except String (List ComparedMutations × List (String × MutationType × ℚ)) :=
  match compareRegionsAux (tally_up_observed_mutations classified filt)
      sampled expected with
  | .error e => .error e
  | .ok (rows, warns) => .ok (sortRows rows, warns)

end KmerPapa

namespace KmerPapa

lemma fieldName_injective :
    ∀ a b : MutationType, a.fieldName = b.fieldName → a = b := by
  intro a b h
  cases a <;> cases b <;> first | rfl | exact absurd h (by decide)

lemma mem_insertRow (x y : ComparedMutations) :
    ∀ l, y ∈ insertRow x l ↔ y = x ∨ y ∈ l := by
  intro l
  induction l with
  | nil => simp [insertRow]
  | cons z zs ih =>
      unfold insertRow
      by_cases hc : cmpF x.p_value z.p_value = Ordering.gt
      · rw [if_pos hc]
        simp only [List.mem_cons, ih]
        tauto
      · rw [if_neg hc]
        simp only [List.mem_cons]

lemma mem_sortRows (y : ComparedMutations) :
    ∀ l, y ∈ sortRows l ↔ y ∈ l := by
  intro l
  induction l with
  | nil => simp [sortRows]
  | cons z zs ih =>
      unfold sortRows at *
      simp only [List.foldr_cons, mem_insertRow, List.mem_cons, ih]

lemma regionRowsAux_mem (region : String) (rexp : ExpectedMutationCounts)
    (robs : ObservedMutationCounts)
    (rs : List (MutationType × DefaultCounter)) :
    ∀ (ts : List MutationType) (row : ComparedMutations),
    row ∈ (regionRowsAux region rexp robs rs ts).1 →
    row.region = region ∧
      ∃ t', row.mutation_type = t'.fieldName ∧ (rs.lookup t').isSome := by
  intro ts
  induction ts with
  | nil => intro row h; simp [regionRowsAux] at h
  | cons t ts ih =>
      intro row h
      unfold regionRowsAux at h
      by_cases hu : (t == MutationType.Unknown)
      · rw [if_pos hu] at h
        exact ih row h
      · rw [if_neg hu] at h
        rcases hlk : rs.lookup t with _ | counter
        · rw [hlk] at h
          by_cases hexp : rexp.get t ≠ 0
          · rw [if_pos hexp] at h
            exact ih row h
          · rw [if_neg hexp] at h
            exact ih row h
        · rw [hlk] at h
          rcases List.mem_cons.mp h with h | h
          · subst h
            refine ⟨rfl, t, rfl, ?_⟩
            rw [hlk]
            rfl
          · exact ih row h

lemma regionRowsAux_warn (region : String) (rexp : ExpectedMutationCounts)
    (robs : ObservedMutationCounts)
    (rs : List (MutationType × DefaultCounter)) :
    ∀ (ts : List MutationType) (t : MutationType), t ∈ ts →
    t ≠ MutationType.Unknown → rs.lookup t = none → rexp.get t ≠ 0 →
    (region, t, rexp.get t) ∈ (regionRowsAux region rexp robs rs ts).2 := by
  intro ts
  induction ts with
  | nil => intro t h; simp at h
  | cons t' ts ih =>
      intro t hmem hne hlk hexp
      unfold regionRowsAux
      rcases List.mem_cons.mp hmem with heq | hmem'
      · subst heq
        rw [if_neg (by simpa using hne), hlk, if_pos hexp]
        exact List.mem_cons_self _ _
      · by_cases hu : (t' == MutationType.Unknown)
        · rw [if_pos hu]
          exact ih t hmem' hne hlk hexp
        · rw [if_neg hu]
          rcases hlk' : rs.lookup t' with _ | counter
          · by_cases hexp' : rexp.get t' ≠ 0
            · rw [if_pos hexp']
              exact List.mem_cons_of_mem _ (ih t hmem' hne hlk hexp)
            · rw [if_neg hexp']
              exact ih t hmem' hne hlk hexp
          · exact ih t hmem' hne hlk hexp

lemma mem_mutationType_all : ∀ t : MutationType, t ∈ MutationType.all := by
  intro t
  cases t <;> simp [MutationType.all]

lemma compareRegionsAux_ok (observed : List (String × ObservedMutationCounts))
    (sampled : List (String × List (MutationType × DefaultCounter))) :
    ∀ (expected : List (String × ExpectedMutationCounts)),
    (∀ p ∈ expected, (sampled.lookup p.1).isSome) →
    ∃ rows warns,
      compareRegionsAux observed sampled expected = .ok (rows, warns) ∧
      (∀ row ∈ rows, ∃ rs, sampled.lookup row.region = some rs ∧
        ∃ t', row.mutation_type = t'.fieldName ∧ (rs.lookup t').isSome) ∧
      (∀ p ∈ expected, ∀ t : MutationType, t ≠ MutationType.Unknown →
        ∀ rs, sampled.lookup p.1 = some rs → rs.lookup t = none →
        p.2.get t ≠ 0 → (p.1, t, p.2.get t) ∈ warns) := by
  intro expected
  induction expected with
  | nil =>
      intro _
      exact ⟨[], [], rfl, by simp, by simp⟩
  | cons p rest ih =>
      intro hall
      rcases p with ⟨region, rexp⟩
      have hsome : (sampled.lookup region).isSome :=
        hall _ (List.mem_cons_self _ _)
      rcases hlk : sampled.lookup region with _ | rs
      · rw [hlk] at hsome
        simp at hsome
      · rcases ih (fun q hq => hall q (List.mem_cons_of_mem _ hq)) with
          ⟨rows, warns, hok, hrows, hwarns⟩
        refine ⟨(regionRowsAux region rexp
            ((observed.lookup region).getD MutationTypeCounts.zero) rs
            MutationType.all).1 ++ rows,
          (regionRowsAux region rexp
            ((observed.lookup region).getD MutationTypeCounts.zero) rs
            MutationType.all).2 ++ warns, ?_, ?_, ?_⟩
        · unfold compareRegionsAux
          rw [hlk, hok]
        · intro row hrow
          rcases List.mem_append.mp hrow with hrow | hrow
          · rcases regionRowsAux_mem region rexp _ rs MutationType.all row hrow
              with ⟨hreg, t', hname, hsome'⟩
            refine ⟨rs, ?_, t', hname, hsome'⟩
            rw [hreg, hlk]
          · exact hrows row hrow
        · intro q hq t hne rs' hrs' hmiss hexp
          rcases List.mem_cons.mp hq with heq | hq'
          · subst heq
            apply List.mem_append_left
            have hrseq : rs' = rs := by
              rw [hlk] at hrs'
              injection hrs' with h
              exact h.symm
            rw [hrseq] at hmiss
            exact regionRowsAux_warn region rexp _ rs MutationType.all t
              (mem_mutationType_all t) hne hmiss hexp
          · exact List.mem_append_right _ (hwarns q hq' t hne rs' hrs' hmiss hexp)

/-- C4 counterexample: with a region `r` that has a positive expected
count but is entirely absent from the sampled mutations (so the sampler
produced no distribution for any class of `r`), `compare_mutations`
returns an error instead of warning and continuing. -/
theorem compare_missing_region_errors :
    compare_mutations []
      [("r", MutationTypeCounts.zero.add .Synonymous 1)] [] none
      = .error "Failed to look up sampled mutations for region r" := by
  rfl

/-- C4 (amended): when every region of the expected counts is present in
the sampled mutations, `compare_mutations` succeeds, and for a (region,
class) whose distribution is absent the row is omitted (with a warning
recorded when the expected count is nonzero); only a region missing
entirely from the sampled mutations makes it return an error. -/
theorem compare_missing_class_skipped
    (classified : List AnnotatedPointMutation)
    (expected : List (String × ExpectedMutationCounts))
    (sampled : List (String × List (MutationType × DefaultCounter)))
    (filt : Option String)
    (hregions : ∀ p ∈ expected, (sampled.lookup p.1).isSome) :
    ∃ rows warns,
      compare_mutations classified expected sampled filt = .ok (rows, warns) ∧
      (∀ region dists t, sampled.lookup region = some dists →
        dists.lookup t = none →
        ∀ row ∈ rows,
          ¬(row.region = region ∧ row.mutation_type = t.fieldName)) ∧
      (∀ p ∈ expected, ∀ t : MutationType, t ≠ MutationType.Unknown →
        ∀ dists, sampled.lookup p.1 = some dists → dists.lookup t = none →
        p.2.get t ≠ 0 → (p.1, t, p.2.get t) ∈ warns) := by
  rcases compareRegionsAux_ok (tally_up_observed_mutations classified filt)
      sampled expected hregions with ⟨rows, warns, hok, hrows, hwarns⟩
  refine ⟨sortRows rows, warns, ?_, ?_, hwarns⟩
  · unfold compare_mutations
    rw [hok]
  · intro region dists t hdists hmiss row hrow hbad
    rcases hbad with ⟨hreg, hname⟩
    have hrow' : row ∈ rows := (mem_sortRows row rows).mp hrow
    rcases hrows row hrow' with ⟨rs, hrs, t', hname', hsome'⟩
    rw [hreg, hdists] at hrs
    have hdrs : dists = rs := by
      injection hrs
    subst hdrs
    have ht : t' = t := fieldName_injective t' t (by rw [← hname', hname])
    rw [ht, hmiss] at hsome'
    simp at hsome'

/-- C4 witness: one region with zero expected counts and an empty
distribution map. -/
theorem compare_missing_class_skipped_witness :
    (∀ p ∈ [("r", (MutationTypeCounts.zero : ExpectedMutationCounts))],
      (([("r", ([] : List (MutationType × DefaultCounter)))].lookup p.1).isSome)) ∧
    ∃ rows warns,
      compare_mutations [] [("r", MutationTypeCounts.zero)]
        [("r", [])] none = .ok (rows, warns) ∧
      (∀ region dists t,
        [("r", ([] : List (MutationType × DefaultCounter)))].lookup region
            = some dists →
        dists.lookup t = none →
        ∀ row ∈ rows,
          ¬(row.region = region ∧ row.mutation_type = t.fieldName)) ∧
      (∀ p ∈ [("r", (MutationTypeCounts.zero : ExpectedMutationCounts))],
        ∀ t : MutationType, t ≠ MutationType.Unknown →
        ∀ dists,
          [("r", ([] : List (MutationType × DefaultCounter)))].lookup p.1
              = some dists →
          dists.lookup t = none →
          p.2.get t ≠ 0 → (p.1, t, p.2.get t) ∈ warns) :=
  ⟨by decide,
    compare_missing_class_skipped [] [("r", MutationTypeCounts.zero)]
      [("r", [])] none (by decide)⟩

lemma cmpF_gt_iff_lt (a b : Option ℚ) :
    cmpF a b = Ordering.gt ↔ cmpF b a = Ordering.lt := by
  cases a with
  | none => cases b <;> simp [cmpF]
  | some x =>
      cases b with
      | none => simp [cmpF]
      | some y =>
          simp only [cmpF]
          exact cmpQ_gt_iff.trans cmpQ_lt_iff.symm

lemma insertRow_head? (x : ComparedMutations) (l : List ComparedMutations) :
    (insertRow x l).head? = some x ∨ (insertRow x l).head? = l.head? := by
  cases l with
  | nil => left; rfl
  | cons y ys =>
      unfold insertRow
      by_cases hc : cmpF x.p_value y.p_value = Ordering.gt
      · rw [if_pos hc]
        right
        rfl
      · rw [if_neg hc]
        left
        rfl

lemma insertRow_chain (x : ComparedMutations) :
    ∀ l, List.Chain' (fun a b => cmpF b.p_value a.p_value ≠ Ordering.lt) l →
    List.Chain' (fun a b => cmpF b.p_value a.p_value ≠ Ordering.lt)
      (insertRow x l) := by
  intro l
  induction l with
  | nil => intro _; simp [insertRow]
  | cons y ys ih =>
      intro hch
      rcases List.chain'_cons'.mp hch with ⟨hhead, hys⟩
      unfold insertRow
      by_cases hc : cmpF x.p_value y.p_value = Ordering.gt
      · rw [if_pos hc]
        apply List.chain'_cons'.mpr
        refine ⟨?_, ih hys⟩
        intro z hz
        rcases insertRow_head? x ys with h | h
        · rw [h] at hz
          have hzx : z = x := by
            have := hz
            simp only [Option.mem_def, Option.some.injEq] at this
            exact this.symm
          rw [hzx]
          rw [hc]
          intro hcon
          exact absurd hcon (by simp)
        · rw [h] at hz
          exact hhead z hz
      · rw [if_neg hc]
        apply List.chain'_cons.mpr
        refine ⟨?_, hch⟩
        intro hcon
        exact hc ((cmpF_gt_iff_lt _ _).mpr hcon)

lemma sortRows_chain (l : List ComparedMutations) :
    List.Chain' (fun a b => cmpF b.p_value a.p_value ≠ Ordering.lt)
      (sortRows l) := by
  induction l with
  | nil => simp [sortRows]
  | cons x xs ih =>
      unfold sortRows at *
      rw [List.foldr_cons]
      exact insertRow_chain x _ ih

/-- C5: the row list returned by `compare_mutations` is sorted ascending
by p-value under the comparator that treats any NaN comparison as equal:
for adjacent rows `a` before `b`, not `b.p_value < a.p_value`. -/
theorem compare_rows_sorted (classified : List AnnotatedPointMutation)
    (expected : List (String × ExpectedMutationCounts))
    (sampled : List (String × List (MutationType × DefaultCounter)))
    (filt : Option String) (rows : List ComparedMutations)
    (warns : List (String × MutationType × ℚ))
    (h : compare_mutations classified expected sampled filt = .ok (rows, warns)) :
    List.Chain' (fun a b => cmpF b.p_value a.p_value ≠ Ordering.lt) rows := by
  unfold compare_mutations at h
  rcases hcmp : compareRegionsAux (tally_up_observed_mutations classified filt)
      sampled expected with e | pr
  · rw [hcmp] at h
    exact absurd h (by simp)
  · rw [hcmp] at h
    rcases pr with ⟨rows0, warns0⟩
    simp only [Except.ok.injEq, Prod.mk.injEq] at h
    rcases h with ⟨h1, _⟩
    rw [← h1]
    exact sortRows_chain rows0

/-- C5 witness: a run with one region whose distribution map is empty. -/
theorem compare_rows_sorted_witness :
    compare_mutations [] [("r", (MutationTypeCounts.zero : ExpectedMutationCounts))]
        [("r", [])] none = .ok ([], []) ∧
    List.Chain'
      (fun a b : ComparedMutations => cmpF b.p_value a.p_value ≠ Ordering.lt)
      [] :=
  ⟨by rfl,
    compare_rows_sorted [] [("r", MutationTypeCounts.zero)] [("r", [])] none
      [] [] (by rfl)⟩

/-! ## C7: the GFF3 transform (`transform.rs`) -/

/-- Modelled from the spec: `Interval` of the `mutexpect` crate, half-open
`[start, stop)`, 0-based, with `start < stop` enforced by the fallible
constructor. -/
structure Interval where
  start : Nat
  stop : Nat
  deriving DecidableEq, Repr

/-- Modelled from the spec: `Interval::new`, which rejects `start ≥ stop`. -/
def Interval.new (start stop : Nat) : Option Interval :=
  if start < stop then some ⟨start, stop⟩ else none

/-- Modelled from the spec: `Phase` of the `mutexpect` crate. -/
inductive Phase where
  | Zero
  | One
  | Two
  deriving DecidableEq, Repr

/-- Modelled from the spec: conversion of the GFF3 phase column character
(`TryInto<Phase> for char`). -/
def Phase.ofChar : Char → Option Phase
  | '0' => some .Zero
  | '1' => some .One
  | '2' => some .Two
  | _ => none

/-- Modelled from the spec: `Strand` of the `mutexpect` crate. -/
inductive Strand where
  | Plus
  | Minus
  deriving DecidableEq, Repr

/-- Modelled from the spec: conversion of the GFF3 strand column character
(`TryInto<Strand> for char`). -/
def Strand.ofChar : Char → Option Strand
  | '+' => some .Plus
  | '-' => some .Minus
  | _ => none

/-- Modelled from the spec: `CDS` of the `mutexpect` crate. -/
structure CDS where
  range : Interval
  phase : Phase
  deriving DecidableEq, Repr

/-- Modelled from the spec: `SeqAnnotation` of the `mutexpect` crate, the
normalized transcript record. -/
structure SeqAnnotation where
  name : String
  chr : String
  range : Interval
  strand : Strand
  exons : List Interval
  coding_sequences : List CDS
  deriving DecidableEq, Repr

/-- `GFF3Record` from `transform.rs:11-22`: one parsed row of the GFF3
file (the tab-splitting and `#`-comment stripping are done by the external
csv crate and are out of scope). -/
structure GFF3Record where
  seq_id : String
  source : String
  seq_type : String
  start : Nat
  endPos : Nat
  score : String
  strand : Char
  phase : Char
  attributes : Option String
  deriving DecidableEq, Repr

/-- Rust `str::split(sep)` for a one-character separator, on the character
list of the string: `""` yields `[""]`, separators at the ends yield empty
pieces. -/
def splitChars (sep : Char) : List Char → List (List Char)
  | [] => [[]]
  | c :: rest =>
      let r := splitChars sep rest
      if c = sep then [] :: r
      else
        match r with
        | [] => [[c]]
        | g :: gs => (c :: g) :: gs

/-- See `splitChars`. -/
def splitOnChar (sep : Char) (s : String) : List String :=
  (splitChars sep s.data).map (fun cs => String.mk cs)

/-- Rust `str::starts_with` on strings. -/
def strStartsWith (p s : String) : Bool :=
  List.isPrefixOf p.data s.data

/-- `get_attribute` from `transform.rs:134-146`: scan the `;`-separated
attributes; on the first one that starts with `attribute_name`, split at
`=` and return the value if it is exactly `name=value`, else keep
scanning. -/
def get_attribute_in : List String → String → Option String
  | [], _ => none
  | attrib :: rest, attribute_name =>
      if strStartsWith attribute_name attrib then
        let kv := splitOnChar '=' attrib
        if kv.length = 2 ∧ kv.getD 0 "" = attribute_name then
          some (kv.getD 1 "")
        else get_attribute_in rest attribute_name
      else get_attribute_in rest attribute_name

/-- See `get_attribute_in`. -/
def get_attribute (attr_str attribute_name : String) : Option String :=
  get_attribute_in (splitOnChar ';' attr_str) attribute_name

/-- The accumulator of the streaming single-pass transform
(`transform.rs:30-36`). -/
structure TState where
  name : String
  chromosome : String
  range : Interval
  strand : Strand
  exons : List Interval
  cdss : List CDS
  deriving DecidableEq, Repr

/-- The flush of the previously accumulated transcript on seeing a new
`transcript` row (`transform.rs:51-67`): push it unless the id filter
excludes it. -/
def flushPrev (filt : Option String) (st : TState)
    (result : List SeqAnnotation) : List SeqAnnotation :=
  if st.name ≠ "" then
    let anno : SeqAnnotation :=
      ⟨st.name, st.chromosome, st.range, st.strand, st.exons, st.cdss⟩
    match filt with
    | some id => if id = st.name then result ++ [anno] else result
    | none => result ++ [anno]
  else result

/-- The row loop of `transform_gff3_annotations` (`transform.rs:46-131`),
including the final flush at end of input (`transform.rs:112-129`).
Coordinates are converted from 1-based inclusive to 0-based half-open via
`Interval::new(start - 1, end)`. -/
def transformRows (filt : Option String) :
    List GFF3Record → TState → List SeqAnnotation →
    Except String (List SeqAnnotation)
  | [], st, result =>
      if st.name ≠ "" then
        match filt with
        | some id =>
            if id ≠ st.name then .ok result
            else .ok (result ++
              [⟨st.name, st.chromosome, st.range, st.strand, st.exons, st.cdss⟩])
        | none =>
            .ok (result ++
              [⟨st.name, st.chromosome, st.range, st.strand, st.exons, st.cdss⟩])
      else .ok result
  | row :: rest, st, result =>
      match row.attributes with
      | none => .error "Missing attributes in GFF3 file"
      | some attributes =>
          if row.seq_type = "transcript" then
            let result' := flushPrev filt st result
            match get_attribute attributes "ID" with
            | none => .error "missing ID attribute"
            | some id =>
                match Interval.new (row.start - 1) row.endPos with
                | none => .error "invalid interval"
                | some rng =>
                    match Strand.ofChar row.strand with
                    | none => .error "invalid strand"
                    | some strand =>
                        transformRows filt rest
                          ⟨id, row.seq_id, rng, strand, [], []⟩ result'
          else if row.seq_type = "exon" then
            match get_attribute attributes "ID" with
            | none => .error "missing ID attribute in GFF3 file"
            | some _ =>
                match get_attribute attributes "Parent" with
                | none => .error "missing Parent attribute in GFF3 file"
                | some parent =>
                    if parent ≠ st.name then
                      .error "The gff3 file is not an ordered tree structure"
                    else
                      match Interval.new (row.start - 1) row.endPos with
                      | none => .error "invalid interval"
                      | some iv =>
                          transformRows filt rest
                            { st with exons := st.exons ++ [iv] } result
          else if row.seq_type = "CDS" then
            match get_attribute attributes "ID" with
            | none => .error "missing ID attribute"
            | some _ =>
                match get_attribute attributes "Parent" with
                | none => .error "missing Parent attribute"
                | some parent =>
                    if parent ≠ st.name then
                      .error "The gff3 file is not an ordered tree structure"
                    else
                      match Phase.ofChar row.phase with
                      | none => .error "CDS region without a proper phase"
                      | some phase =>
                          match Interval.new (row.start - 1) row.endPos with
                          | none => .error "invalid interval"
                          | some iv =>
                              transformRows filt rest
                                { st with cdss := st.cdss ++ [⟨iv, phase⟩] }
                                result
          else transformRows filt rest st result

/-- `transform_gff3_annotations` from `transform.rs`, over parsed rows. -/
def transform_gff3_annotations (rows : List GFF3Record)
    (filt : Option String) : Except String (List SeqAnnotation) :=
  transformRows filt rows ⟨"", "", ⟨0, 1⟩, Strand.Plus, [], []⟩ []

/-- The canonical two-transcript GFF3 fixture (the parsed rows of the
`test_gff3_io` file of `transform.rs:193-208`): 1-based coordinates, two
exons and two CDS segments per transcript, phases 2 then 1. -/
def gff3Fixture : List GFF3Record :=
  [⟨"chr1", "test", "gene", 1, 100, ".", '+', '.', some "attrs"⟩,
   ⟨"chr1", "test", "gene", 1, 100, ".", '+', '.', some "attrs"⟩,
   ⟨"chr1", "test", "gene", 1, 100, ".", '+', '.', some "attrs"⟩,
   ⟨"chr1", "test", "transcript", 10, 90, ".", '+', '.',
     some "foo=bar;ID=transcript1;baz=quux"⟩,
   ⟨"chr1", "test", "exon", 20, 30, ".", '+', '.',
     some "ID=ex1;Parent=transcript1"⟩,
   ⟨"chr1", "test", "exon", 35, 40, ".", '+', '.',
     some "ID=ex2;Parent=transcript1"⟩,
   ⟨"chr1", "test", "CDS", 20, 25, ".", '+', '2',
     some "Parent=transcript1;ID=cds1;bla=bla"⟩,
   ⟨"chr1", "test", "CDS", 38, 40, ".", '+', '1',
     some "bla=bla;Parent=transcript1;ID=cds2"⟩,
   ⟨"chr2", "test", "transcript", 10, 90, ".", '+', '.',
     some "foo=bar;ID=transcript2;baz=quux"⟩,
   ⟨"chr2", "test", "exon", 20, 30, ".", '+', '.',
     some "ID=ex3;Parent=transcript2"⟩,
   ⟨"chr2", "test", "exon", 35, 40, ".", '+', '.',
     some "ID=ex4;Parent=transcript2"⟩,
   ⟨"chr2", "test", "CDS", 20, 25, ".", '+', '2',
     some "Parent=transcript2;ID=cds2;bla=bla"⟩,
   ⟨"chr2", "test", "CDS", 38, 40, ".", '+', '1',
     some "bla=bla;Parent=transcript2;ID=cds3"⟩]

/-- C7: on the canonical fixture the transform yields exactly two
annotations with all coordinates converted from 1-based inclusive to
0-based half-open: transcript1 on chr1 with range `[9,90)`, exons
`[19,30)` and `[34,40)`, CDS `([19,25), Two)` and `([37,40), One)`, and
transcript2 analogously on chr2. -/
theorem transform_fixture_zero_based :
    transform_gff3_annotations gff3Fixture none
      = .ok
        [⟨"transcript1", "chr1", ⟨9, 90⟩, .Plus, [⟨19, 30⟩, ⟨34, 40⟩],
           [⟨⟨19, 25⟩, .Two⟩, ⟨⟨37, 40⟩, .One⟩]⟩,
         ⟨"transcript2", "chr2", ⟨9, 90⟩, .Plus, [⟨19, 30⟩, ⟨34, 40⟩],
           [⟨⟨19, 25⟩, .Two⟩, ⟨⟨37, 40⟩, .One⟩]⟩] := by
  rfl

/-! ## C8: indel framing -/

/-- C8: For every `Change`: a `PointMutation` is never a frameshift, and an
`Indel(ref, alt)` is a frameshift exactly when `(|alt| - |ref|) mod 3 ≠ 0`;
in particular `Change("A","ACGT")` is not a frameshift,
`Change("A","AC")` is, `Change("ACGT","A")` is not, and `Change("AC","A")`
is. -/
theorem change_is_frameshift_spec :
    (∀ a b : Char, (Change.PointMutation a b).is_frameshift = false) ∧
    (∀ r a : String, (Change.Indel r a).is_frameshift = true ↔
      ¬ ((a.length : ℤ) - (r.length : ℤ)) % 3 = 0) ∧
    (Change.Indel "A" "ACGT").is_frameshift = false ∧
    (Change.Indel "A" "AC").is_frameshift = true ∧
    (Change.Indel "ACGT" "A").is_frameshift = false ∧
    (Change.Indel "AC" "A").is_frameshift = true := by
  refine ⟨fun a b => rfl, fun r a => ?_, by decide, by decide, by decide, by decide⟩
  have hneg : ((r.length : ℤ) - (a.length : ℤ)) % 3 = 0 ↔
      ((a.length : ℤ) - (r.length : ℤ)) % 3 = 0 := by
    rw [← Int.dvd_iff_emod_eq_zero, ← Int.dvd_iff_emod_eq_zero]
    exact dvd_sub_comm
  simp only [Change.is_frameshift, ne_eq, decide_not, Bool.not_eq_true',
    decide_eq_false_iff_not, Decidable.not_not, decide_eq_true_eq]
  constructor
  · intro h hcontra
    exact h (hneg.mpr hcontra)
  · intro h hcontra
    exact h (hneg.mp hcontra)

end KmerPapa
